import Mathlib

/-!
Verification development for the Creart TDK Dictionary API (src/index.js).

The JavaScript source is shallowly embedded: strings are `String`/`List Char`,
JS objects become structures, nullable JS values become `Option`, settled
promises become the `Settled` inductive, and the remote dictionary service is
an explicit function parameter (a deterministic map from request URL to settled
response).  Wall-clock readings (`Date.now()`) are passed in as an explicit
`elapsedMs` parameter, and the randomized ordering that `populerAramalar`
introduces via `Math.random` is modelled by passing the candidate pool as an
explicit list parameter.
-/

namespace TDK

/-- Character class of the JavaScript regular-expression `\s` (and of
`String.prototype.trim`): space, tab, line terminators, and the Unicode
space separators, as used in `kelimeTemizle` (src/index.js:654-664). -/
def isWs (c : Char) : Bool :=
  c.val == 0x20 || c.val == 0x09 || c.val == 0x0a || c.val == 0x0b ||
  c.val == 0x0c || c.val == 0x0d || c.val == 0xa0 || c.val == 0x1680 ||
  (decide (0x2000 ≤ c.val) && decide (c.val ≤ 0x200a)) ||
  c.val == 0x2028 || c.val == 0x2029 || c.val == 0x202f ||
  c.val == 0x205f || c.val == 0x3000 || c.val == 0xfeff

/-- The `\w` character class of JavaScript regular expressions. -/
def isWordChar (c : Char) : Bool :=
  (decide (0x61 ≤ c.val) && decide (c.val ≤ 0x7a)) ||
  (decide (0x41 ≤ c.val) && decide (c.val ≤ 0x5a)) ||
  (decide (0x30 ≤ c.val) && decide (c.val ≤ 0x39)) ||
  c == '_'

/-- The Turkish letters listed explicitly in the filtering regular expression
of `kelimeTemizle`: `çğıöşüÇĞİÖŞÜ`. -/
def isTurkishExtra (c : Char) : Bool :=
  c == 'ç' || c == 'ğ' || c == 'ı' || c == 'ö' || c == 'ş' || c == 'ü' ||
  c == 'Ç' || c == 'Ğ' || c == 'İ' || c == 'Ö' || c == 'Ş' || c == 'Ü'

/-- Characters RETAINED by `replace(/[^\w\sçğıöşüÇĞİÖŞÜ\-]/g, '')`. -/
def isKept (c : Char) : Bool :=
  isWordChar c || isWs c || isTurkishExtra c || c == '-'

/-- The case-folding table of `toLocaleLowerCase('tr-TR')` on the character
domain this development reasons about (ASCII letters and the precomposed
Turkish letters): `A`-`Z` map to `a`-`z` except that dotless `I` maps to `ı`,
dotted `İ` maps to `i`, and the uppercase Turkish letters map to their
lowercase forms.  Other characters are left unchanged by the model. -/
def lowerPairs : List (Char × Char) :=
  [('A', 'a'), ('B', 'b'), ('C', 'c'), ('D', 'd'), ('E', 'e'), ('F', 'f'),
   ('G', 'g'), ('H', 'h'), ('I', 'ı'), ('J', 'j'), ('K', 'k'), ('L', 'l'),
   ('M', 'm'), ('N', 'n'), ('O', 'o'), ('P', 'p'), ('Q', 'q'), ('R', 'r'),
   ('S', 's'), ('T', 't'), ('U', 'u'), ('V', 'v'), ('W', 'w'), ('X', 'x'),
   ('Y', 'y'), ('Z', 'z'), ('Ç', 'ç'), ('Ğ', 'ğ'), ('İ', 'i'), ('Ö', 'ö'),
   ('Ş', 'ş'), ('Ü', 'ü')]

/-- Turkish-locale lowercasing of one character (`toLocaleLowerCase('tr-TR')`). -/
def lowerChar (c : Char) : Char := (lowerPairs.lookup c).getD c

/-- `String.prototype.trim`: drop leading and trailing whitespace. -/
def trimL (l : List Char) : List Char := (l.dropWhile isWs).rdropWhile isWs

/-- `replace(/\s+/g, ' ')`: every maximal run of whitespace characters is
replaced by a single space. -/
def collapseWs : List Char → List Char
  | [] => []
  | [c] => if isWs c then [' '] else [c]
  | a :: b :: rest =>
    if isWs a && isWs b then collapseWs (b :: rest)
    else (if isWs a then ' ' else a) :: collapseWs (b :: rest)

/-- The source applies Unicode NFKC normalization (`normalize('NFKC')`).  On
the character domain of this development (ASCII and the precomposed Turkish
letters, which are all NFKC-normal) NFKC is the identity, and it is modelled
as such. -/
def nfkcModel (l : List Char) : List Char := l

/-- A JavaScript argument that may or may not be a string, for the
`!word || typeof word !== 'string'` guard of `kelimeTemizle`. -/
inductive KelimeGirdi where
  | gecersiz : KelimeGirdi
  | metin (s : String) : KelimeGirdi

/-- `kelimeTemizle` (src/index.js:654-664): empty or non-string input yields
`""`; otherwise lower-case with Turkish folding, trim, NFKC-normalize, drop
every character outside `\w`, `\s`, the Turkish letters and `-`, and collapse
whitespace runs to single spaces — in exactly that order. -/
def kelimeTemizle : KelimeGirdi → String
  | .gecersiz => ""
  | .metin s =>
    if s = "" then ""
    else ⟨collapseWs (List.filter isKept (nfkcModel (trimL (s.data.map lowerChar))))⟩

/-- `kelimeTemizle` applied to an argument that is a string. -/
def kelimeTemizleS (s : String) : String := kelimeTemizle (.metin s)

example : kelimeTemizleS "  Merhaba   Dünya!  " = "merhaba dünya" := by decide
example : kelimeTemizleS "İSTANBUL" = "istanbul" := by decide
example : kelimeTemizleS "IŞIK" = "ışık" := by decide
example : kelimeTemizleS "a !" = "a " := by decide
example : kelimeTemizleS "a " = "a" := by decide

/-! ### Facts about the normalizer pipeline -/

lemma lookup_mem_values {ps : List (Char × Char)} {c r : Char}
    (h : ps.lookup c = some r) : r ∈ ps.map Prod.snd := by
  induction ps with
  | nil => simp [List.lookup] at h
  | cons p tl ih =>
    rw [List.lookup] at h
    by_cases hc : c == p.1
    · simp [hc] at h; simp [h]
    · simp [hc] at h
      exact List.mem_cons_of_mem _ (ih h)

lemma lowerChar_idem (c : Char) : lowerChar (lowerChar c) = lowerChar c := by
  unfold lowerChar
  cases h : lowerPairs.lookup c with
  | none => simp [h]
  | some r =>
    simp only [Option.getD_some]
    have hr : r ∈ lowerPairs.map Prod.snd := lookup_mem_values h
    have hnone : ∀ x ∈ lowerPairs.map Prod.snd, lowerPairs.lookup x = none := by decide
    simp [hnone r hr]

lemma lowerChar_space : lowerChar ' ' = ' ' := by decide

lemma isWs_space : isWs ' ' = true := by decide

/-- Boolean well-formedness of a whitespace-collapsed list: every whitespace
character is a plain space and no two whitespace characters are adjacent. -/
def sepOk : List Char → Bool
  | [] => true
  | [c] => !isWs c || c == ' '
  | a :: b :: rest => (!isWs a || (a == ' ' && !isWs b)) && sepOk (b :: rest)

lemma sepOk_tail {c : Char} {l : List Char} (h : sepOk (c :: l) = true) :
    sepOk l = true := by
  cases l with
  | nil => rfl
  | cons b rest => exact (Bool.and_eq_true_iff.mp h).2

lemma collapseWs_cons_nonws (b : Char) (rest : List Char) (h : isWs b = false) :
    ∃ t, collapseWs (b :: rest) = b :: t := by
  cases rest with
  | nil => exact ⟨[], by simp [collapseWs, h]⟩
  | cons r rs => exact ⟨collapseWs (r :: rs), by simp [collapseWs, h]⟩

lemma sepOk_collapseWs (l : List Char) : sepOk (collapseWs l) = true := by
  induction l with
  | nil => rfl
  | cons a tl ih =>
    cases tl with
    | nil =>
      by_cases h : isWs a = true <;> simp [collapseWs, sepOk, h]
    | cons b rest =>
      by_cases ha : isWs a = true
      · by_cases hb : isWs b = true
        · simpa [collapseWs, ha, hb] using ih
        · obtain ⟨t, ht⟩ := collapseWs_cons_nonws b rest (by simpa using hb)
          have hgoal : collapseWs (a :: b :: rest) = ' ' :: collapseWs (b :: rest) := by
            simp [collapseWs, ha, hb]
          rw [hgoal, ht]
          have ih' : sepOk (b :: t) = true := by rw [← ht]; exact ih
          have hb' : isWs b = false := by simpa using hb
          simp [sepOk, hb', ih']
      · have hgoal : collapseWs (a :: b :: rest) = a :: collapseWs (b :: rest) := by
          simp [collapseWs, ha]
        rw [hgoal]
        cases hcb : collapseWs (b :: rest) with
        | nil => simp [sepOk, ha]
        | cons x t =>
          have ih' : sepOk (x :: t) = true := by rw [← hcb]; exact ih
          simp [sepOk, ha, ih']

lemma collapseWs_eq_self {l : List Char} (h : sepOk l = true) :
    collapseWs l = l := by
  induction l with
  | nil => rfl
  | cons a tl ih =>
    cases tl with
    | nil =>
      rw [sepOk] at h
      rcases Bool.or_eq_true_iff.mp h with h' | h'
      · have ha : isWs a = false := by simpa using h'
        simp [collapseWs, ha]
      · have : a = ' ' := by simpa using h'
        subst this; simp [collapseWs, isWs_space]
    | cons b rest =>
      rw [sepOk] at h
      obtain ⟨h1, h2⟩ := Bool.and_eq_true_iff.mp h
      have ih' := ih h2
      rcases Bool.or_eq_true_iff.mp h1 with h' | h'
      · have ha : isWs a = false := by simpa using h'
        simp [collapseWs, ha, ih']
      · obtain ⟨ha, hb⟩ := Bool.and_eq_true_iff.mp h'
        have ha' : a = ' ' := by simpa using ha
        have hb' : isWs b = false := by simpa using hb
        subst ha'
        simp [collapseWs, isWs_space, hb', ih']

lemma mem_collapseWs {c : Char} : ∀ {l : List Char},
    c ∈ collapseWs l → c = ' ' ∨ c ∈ l := by
  intro l
  induction l with
  | nil => intro h; simp [collapseWs] at h
  | cons a tl ih =>
    cases tl with
    | nil =>
      by_cases h : isWs a = true <;> intro hc <;> simp [collapseWs, h] at hc
      · exact Or.inl hc
      · exact Or.inr (by simp [hc])
    | cons b rest =>
      intro hc
      by_cases ha : isWs a = true
      · by_cases hb : isWs b = true
        · rw [show collapseWs (a :: b :: rest) = collapseWs (b :: rest) from by
            simp [collapseWs, ha, hb]] at hc
          rcases ih hc with h | h
          · exact Or.inl h
          · exact Or.inr (List.mem_cons_of_mem _ h)
        · rw [show collapseWs (a :: b :: rest) = ' ' :: collapseWs (b :: rest) from by
            simp [collapseWs, ha, hb]] at hc
          rcases List.mem_cons.mp hc with h | h
          · exact Or.inl h
          · rcases ih h with h' | h'
            · exact Or.inl h'
            · exact Or.inr (List.mem_cons_of_mem _ h')
      · rw [show collapseWs (a :: b :: rest) = a :: collapseWs (b :: rest) from by
          simp [collapseWs, ha]] at hc
        rcases List.mem_cons.mp hc with h | h
        · exact Or.inr (by simp [h])
        · rcases ih h with h' | h'
          · exact Or.inl h'
          · exact Or.inr (List.mem_cons_of_mem _ h')

lemma sepOk_append_left : ∀ (l t : List Char), sepOk (l ++ t) = true → sepOk l = true := by
  intro l
  induction l with
  | nil => intro t _; rfl
  | cons a l' ih =>
    intro t h
    cases l' with
    | nil =>
      cases t with
      | nil => simpa using h
      | cons c t' =>
        rw [List.singleton_append, sepOk] at h
        obtain ⟨h1, _⟩ := Bool.and_eq_true_iff.mp h
        rw [sepOk]
        rcases Bool.or_eq_true_iff.mp h1 with h' | h'
        · simp [h']
        · simp [(Bool.and_eq_true_iff.mp h').1]
    | cons b l'' =>
      rw [List.cons_append, List.cons_append, sepOk] at h
      obtain ⟨h1, h2⟩ := Bool.and_eq_true_iff.mp h
      rw [← List.cons_append] at h2
      rw [sepOk]
      exact Bool.and_eq_true_iff.mpr ⟨h1, ih t h2⟩

lemma sepOk_of_prefix {l₁ l₂ : List Char} (h : l₁ <+: l₂)
    (h₂ : sepOk l₂ = true) : sepOk l₁ = true := by
  obtain ⟨t, rfl⟩ := h
  exact sepOk_append_left l₁ t h₂

lemma sepOk_dropWhile {p : Char → Bool} {l : List Char} (h : sepOk l = true) :
    sepOk (l.dropWhile p) = true := by
  induction l with
  | nil => rfl
  | cons a tl ih =>
    rw [List.dropWhile]
    by_cases hp : p a = true
    · simp only [hp, cond_true]
      exact ih (sepOk_tail h)
    · simp only [Bool.not_eq_true] at hp
      simp [hp, h]

lemma sepOk_trimL {l : List Char} (h : sepOk l = true) :
    sepOk (trimL l) = true := by
  unfold trimL
  exact sepOk_of_prefix ( List.rdropWhile_prefix isWs (l.dropWhile isWs)) (sepOk_dropWhile h)

lemma trimL_subset (l : List Char) : trimL l ⊆ l := by
  intro c hc
  have h1 : c ∈ l.dropWhile isWs :=
    List.IsPrefix.subset ( List.rdropWhile_prefix isWs (l.dropWhile isWs)) hc
  exact List.IsSuffix.subset ( List.dropWhile_suffix isWs) h1

lemma filter_eq_self_of_all {p : Char → Bool} :
    ∀ {l : List Char}, (∀ a ∈ l, p a = true) → l.filter p = l := by
  intro l h
  induction l with
  | nil => rfl
  | cons a tl ih =>
    rw [List.filter_cons, if_pos (h a (List.mem_cons_self a tl))]
    exact congrArg _ (ih (fun b hb => h b (List.mem_cons_of_mem a hb)))

/-- Every character of the normalized form is fixed by the Turkish folding,
is retained by the filter, and the form is whitespace-collapsed. -/
lemma kelimeTemizleS_chars (s : String) :
    ∀ c ∈ (kelimeTemizleS s).data, lowerChar c = c ∧ isKept c = true := by
  intro c hc
  unfold kelimeTemizleS kelimeTemizle at hc
  by_cases hs : s = ""
  · simp [hs] at hc
  · simp only [hs, if_neg, ite_false] at hc
    rcases mem_collapseWs hc with h | h
    · subst h
      exact ⟨lowerChar_space, by decide⟩
    · have hkept := List.of_mem_filter h
      have hmem := List.mem_filter.mp h |>.1
      have hlow : c ∈ (s.data.map lowerChar) := trimL_subset _ (by simpa [nfkcModel] using hmem)
      obtain ⟨c₀, _, rfl⟩ := List.mem_map.mp hlow
      exact ⟨lowerChar_idem c₀, hkept⟩

lemma sepOk_kelimeTemizleS (s : String) : sepOk (kelimeTemizleS s).data = true := by
  unfold kelimeTemizleS kelimeTemizle
  by_cases hs : s = ""
  · simp [hs]; rfl
  · simp only [hs, if_neg, ite_false]
    exact sepOk_collapseWs _

/-- C5 (corrected): the claim asserts `normalize (normalize x) = normalize x`
for every `x`, but `kelimeTemizle` trims BEFORE it removes disallowed
characters, so removing a character can expose a leading or trailing space
that the first pass never trims.  On `"a !"` the first pass yields `"a "`
(with a trailing space) while the second yields `"a"`, refuting idempotence. -/
theorem claim5_cex :
    kelimeTemizleS "a !" = "a " ∧
    kelimeTemizleS (kelimeTemizleS "a !") ≠ kelimeTemizleS "a !" := by
  exact ⟨by decide, by decide⟩

/-- C5 amended: applying `kelimeTemizle` a second time is exactly a trim of
the first result — the second pass only strips the leading/trailing spaces
that character removal may have exposed.  In particular the normalizer is
idempotent precisely on those inputs whose normalized form carries no
leading or trailing whitespace. -/
theorem claim5_thm (s : String) :
    kelimeTemizleS (kelimeTemizleS s) = ⟨trimL (kelimeTemizleS s).data⟩ := by
  by_cases hs : s = ""
  · subst hs; rfl
  · set y := kelimeTemizleS s with hy
    by_cases hy0 : y = ""
    · rw [hy0]; rfl
    · have hchars : ∀ c ∈ y.data, lowerChar c = c ∧ isKept c = true := by
        rw [hy]; exact kelimeTemizleS_chars s
      have hmap : y.data.map lowerChar = y.data := by
        conv_rhs => rw [← List.map_id y.data]
        exact List.map_congr_left (fun a ha => (hchars a ha).1)
      have hkept : ∀ a ∈ trimL y.data, isKept a = true :=
        fun a ha => (hchars a (trimL_subset _ ha)).2
      have hfilter : List.filter isKept (trimL y.data) = trimL y.data :=
        filter_eq_self_of_all hkept
      have hsep : sepOk (trimL y.data) = true := by
        refine sepOk_trimL ?_
        rw [hy]; exact sepOk_kelimeTemizleS s
      show kelimeTemizleS y = _
      simp only [kelimeTemizleS, kelimeTemizle, if_neg hy0, nfkcModel]
      rw [hmap, hfilter, collapseWs_eq_self hsep]

/-! ### Cache invalidation (`cacheTemizle`, src/index.js:490-499) -/

section Cache

variable {V : Type}

/-- `NodeCache.del(key)`: remove the entry stored under `key`. -/
def cacheDel (k : String) (cache : List (String × V)) : List (String × V) :=
  cache.filter (fun kv => kv.1 != k)

/-- `String.prototype.includes`: the pattern occurs somewhere in the key. -/
def strIncludes (key pat : String) : Bool :=
  key.data.tails.any (fun t => pat.data.isPrefixOf t)

/-- `cacheTemizle` (src/index.js:490-499) on the key-value view of the cache:
a falsy pattern (absent or the empty string) flushes everything; otherwise
every key that CONTAINS the pattern (`key.includes(pattern)`) is collected
and each collected key is deleted. -/
def cacheTemizle (pattern : Option String) (cache : List (String × V)) :
    List (String × V) :=
  match pattern with
  | none => []
  | some p =>
    if p = "" then []
    else
      let keys := (cache.map Prod.fst).filter (fun k => strIncludes k p)
      keys.foldl (fun c k => cacheDel k c) cache

lemma mem_foldl_cacheDel (ks : List String) :
    ∀ (cache : List (String × V)) (kv : String × V),
      (kv ∈ ks.foldl (fun c k => cacheDel k c) cache ↔ kv ∈ cache ∧ kv.1 ∉ ks) := by
  induction ks with
  | nil => intro cache kv; simp
  | cons k ks ih =>
    intro cache kv
    rw [List.foldl_cons, ih]
    unfold cacheDel
    simp only [List.mem_filter, bne_iff_ne, List.mem_cons]
    constructor
    · rintro ⟨⟨h1, h2⟩, h3⟩
      exact ⟨h1, by simp [h2, h3]⟩
    · rintro ⟨h1, h2⟩
      push_neg at h2
      exact ⟨⟨h1, h2.1⟩, h2.2⟩

/-- C6 (corrected): with a non-empty pattern, `cacheTemizle` keeps exactly
those entries whose key does NOT CONTAIN the pattern as a substring —
substring containment, not prefix matching, decides removal, and a pattern
equal to an existing key also removes every longer key containing it. -/
theorem claim6_thm (p : String) (hp : p ≠ "") (cache : List (String × V))
    (kv : String × V) :
    kv ∈ cacheTemizle (some p) cache ↔ kv ∈ cache ∧ strIncludes kv.1 p = false := by
  simp only [cacheTemizle, if_neg hp]
  rw [mem_foldl_cacheDel]
  simp only [List.mem_filter, List.mem_map]
  constructor
  · rintro ⟨h1, h2⟩
    refine ⟨h1, ?_⟩
    by_contra hinc
    rw [Bool.not_eq_false] at hinc
    exact h2 ⟨⟨kv, h1, rfl⟩, hinc⟩
  · rintro ⟨h1, h2⟩
    refine ⟨h1, ?_⟩
    rintro ⟨-, hinc⟩
    rw [h2] at hinc
    exact Bool.false_ne_true hinc

/-- C6 witness: at a concrete cache, an entry survives invalidation if and
only if its key does not contain the pattern. -/
theorem claim6_witness :
    (("gunun_kelimesi_daily", 7) ∈
        cacheTemizle (some "kalem") [("gunun_kelimesi_daily", 7), ("ara_kalem_1", 9)] ↔
      ("gunun_kelimesi_daily", 7) ∈
          [("gunun_kelimesi_daily", 7), ("ara_kalem_1", (9 : Nat))] ∧
        strIncludes "gunun_kelimesi_daily" "kalem" = false) :=
  claim6_thm "kalem" (by decide) _ _

/-- C6 counterexample: the claim says a key is removed iff the pattern is a
PREFIX of it, and that an exact key removes ONLY that entry.  The code
removes `"ara_kalem_1"` under pattern `"kalem"` although `"kalem"` is not a
prefix of it, and under the exact key `"ara_kalem"` it also removes the
sibling entry `"xara_kalem2"` that merely contains that key. -/
theorem claim6_cex :
    cacheTemizle (some "kalem") [("ara_kalem_1", (0 : Nat))] = [] ∧
    "kalem".data.isPrefixOf "ara_kalem_1".data = false ∧
    cacheTemizle (some "ara_kalem") [("ara_kalem", (1 : Nat)), ("xara_kalem2", 2)] = [] := by
  refine ⟨by decide, by decide, by decide⟩

end Cache

/-! ### Wildcard pattern search (C7) -/

/-- Modelled from the spec: splitting a string at every comma, as
JavaScript's `split(',')` does (the README documents the trailing `,<N>`
clause of wildcard patterns; the `asteriskAra` implementation itself is
absent from the source tree). -/
def splitOnComma : List Char → List (List Char)
  | [] => [[]]
  | c :: rest =>
    let r := splitOnComma rest
    if c = ',' then [] :: r
    else
      match r with
      | [] => [[c]]
      | w :: ws => (c :: w) :: ws

/-- Parse a decimal digit string. -/
def digitsToNat : List Char → Option Nat
  | [] => none
  | l =>
    if l.all (fun c => c.isDigit) then
      some (l.foldl (fun acc c => acc * 10 + (c.toNat - 48)) 0)
    else none

/-- Modelled from the spec: split an optional trailing `,<N>` length clause
off a wildcard pattern. -/
def parseLenClause (pat : String) : List Char × Option Nat :=
  match splitOnComma pat.data with
  | [body, n] => (body, digitsToNat n)
  | _ => (pat.data, none)

/-- Modelled from the spec: the wildcard matcher of the documented
`asteriskAra` operation.  `?` matches exactly one arbitrary character, `*`
matches zero or more characters, and literal characters are compared
case-insensitively under the Turkish folding of §4.1. -/
def wildMatch : List Char → List Char → Bool
  | [], cs => cs.isEmpty
  | '?' :: ps, cs =>
    match cs with
    | [] => false
    | _ :: cs' => wildMatch ps cs'
  | '*' :: ps, cs => (List.range (cs.length + 1)).any (fun k => wildMatch ps (cs.drop k))
  | p :: ps, cs =>
    match cs with
    | [] => false
    | c :: cs' => (lowerChar p == lowerChar c) && wildMatch ps cs'

/-- Modelled from the spec: the complete wildcard match — pattern body
matched by `wildMatch`, and the optional `,<N>` clause restricting the
term to exactly length `N`. -/
def asteriskMatch (pat term : String) : Bool :=
  let bl := parseLenClause pat
  wildMatch bl.1 term.data &&
    (match bl.2 with
     | some n => term.data.length == n
     | none => true)

example : asteriskMatch "k?tap" "kitap" = true := by decide
example : asteriskMatch "a*a" "araba" = true := by decide
example : asteriskMatch "k*p,5" "kalıp" = true := by decide
example : asteriskMatch "k*p,5" "kap" = false := by decide

lemma lowerChar_k : lowerChar 'k' = 'k' := by decide

lemma lowerChar_p : lowerChar 'p' = 'p' := by decide

lemma wildMatch_single_p {l : List Char} :
    wildMatch ['p'] l = true ↔ ∃ d, l = [d] ∧ lowerChar d = 'p' := by
  cases l with
  | nil =>
    rw [show wildMatch ['p'] ([] : List Char) = false from rfl]
    simp
  | cons d l' =>
    cases l' with
    | nil =>
      rw [show wildMatch ['p'] [d] = ((lowerChar 'p' == lowerChar d) && true) from rfl,
        lowerChar_p]
      constructor
      · intro h
        have h1 := (Bool.and_eq_true_iff.mp h).1
        exact ⟨d, rfl, (beq_iff_eq.mp h1).symm⟩
      · rintro ⟨e, he, hep⟩
        simp only [List.cons.injEq, and_true] at he
        subst he
        simp [hep]
    | cons e l'' =>
      rw [show wildMatch ['p'] (d :: e :: l'') =
          ((lowerChar 'p' == lowerChar d) && List.isEmpty (e :: l'')) from rfl]
      simp

lemma wildMatch_star_p {cs : List Char} :
    wildMatch ['*', 'p'] cs = true ↔
      ∃ mid d, cs = mid ++ [d] ∧ lowerChar d = 'p' := by
  constructor
  · intro h
    rw [show wildMatch ['*', 'p'] cs =
        (List.range (cs.length + 1)).any (fun k => wildMatch ['p'] (cs.drop k)) from rfl] at h
    obtain ⟨k, -, hk⟩ := List.any_eq_true.mp h
    obtain ⟨d, hd, hdp⟩ := wildMatch_single_p.mp hk
    refine ⟨cs.take k, d, ?_, hdp⟩
    rw [← hd]
    exact (List.take_append_drop k cs).symm
  · rintro ⟨mid, d, rfl, hdp⟩
    rw [show wildMatch ['*', 'p'] (mid ++ [d]) =
        (List.range ((mid ++ [d]).length + 1)).any
          (fun k => wildMatch ['p'] ((mid ++ [d]).drop k)) from rfl]
    refine List.any_eq_true.mpr ⟨mid.length, ?_, ?_⟩
    · simp [List.mem_range, List.length_append]
      omega
    · rw [List.drop_left]
      exact wildMatch_single_p.mpr ⟨d, rfl, hdp⟩

/-- C7 (confirmed, against the spec-modelled matcher): `"k?tap"` matches
`"kitap"` and `"katap"` but not `"kiitap"`, matching is Turkish-case-
insensitive, and `"k*p,5"` matches exactly the 5-character terms whose
folded form starts with `k` and ends with `p`. -/
theorem claim7_thm :
    asteriskMatch "k?tap" "kitap" = true ∧
    asteriskMatch "k?tap" "katap" = true ∧
    asteriskMatch "k?tap" "kiitap" = false ∧
    asteriskMatch "K?TAP" "kitap" = true ∧
    asteriskMatch "k?tap" "KİTAP" = true ∧
    (∀ t : String, asteriskMatch "k*p,5" t = true ↔
      t.data.length = 5 ∧
        ∃ mid, t.data.map lowerChar = 'k' :: mid ++ ['p']) := by
  refine ⟨by decide, by decide, by decide, by decide, by decide, ?_⟩
  intro t
  have hred : asteriskMatch "k*p,5" t =
      (wildMatch ['k', '*', 'p'] t.data && (t.data.length == 5)) := rfl
  rw [hred]
  simp only [Bool.and_eq_true, beq_iff_eq]
  constructor
  · rintro ⟨hw, hlen⟩
    refine ⟨hlen, ?_⟩
    cases ht : t.data with
    | nil =>
      rw [ht, show wildMatch ['k', '*', 'p'] ([] : List Char) = false from rfl] at hw
      exact absurd hw (by decide)
    | cons c cs' =>
      rw [ht] at hw
      rw [show wildMatch ['k', '*', 'p'] (c :: cs') =
          ((lowerChar 'k' == lowerChar c) && wildMatch ['*', 'p'] cs') from rfl] at hw
      obtain ⟨hc, hrest⟩ := Bool.and_eq_true_iff.mp hw
      rw [lowerChar_k, beq_iff_eq] at hc
      obtain ⟨mid, d, hsplit, hdp⟩ := wildMatch_star_p.mp hrest
      refine ⟨mid.map lowerChar, ?_⟩
      rw [hsplit]
      simp [← hc, hdp]
  · rintro ⟨hlen, mid, hmap⟩
    refine ⟨?_, hlen⟩
    cases ht : t.data with
    | nil => rw [ht] at hmap; simp at hmap
    | cons c cs' =>
      rw [ht, List.map_cons] at hmap
      obtain ⟨hc, htail⟩ := List.cons_eq_cons.mp hmap
      have hcs : cs' ≠ [] := by
        intro h0
        rw [h0] at htail
        exact (List.append_ne_nil_of_right_ne_nil mid (by simp)) htail.symm
      rcases List.eq_nil_or_concat cs' with h0 | ⟨init, d, hinit0⟩
      · exact absurd h0 hcs
      · have hinit : cs' = init ++ [d] := by rw [hinit0, List.concat_eq_append]
        have hdp : lowerChar d = 'p' := by
          have h1 : (cs'.map lowerChar).getLast? = some 'p' := by
            rw [htail]; simp
          rw [hinit] at h1
          simp at h1
          exact h1
        rw [show wildMatch ['k', '*', 'p'] (c :: cs') =
            ((lowerChar 'k' == lowerChar c) && wildMatch ['*', 'p'] cs') from rfl]
        refine Bool.and_eq_true_iff.mpr ⟨?_, ?_⟩
        · rw [lowerChar_k, hc]; exact beq_self_eq_true 'k'
        · exact wildMatch_star_p.mpr ⟨init, d, hinit, hdp⟩

/-! ### Candidate pool, words-by-letter and similar words (C8, C9) -/

/-- The case-folding table of the plain, non-locale `toLowerCase()` used by
`harfeGoreKelimeler`.  It differs from the Turkish table by sending `I` to
`i`; dotted `İ` is not in this table because plain lowercasing expands it to
two characters (see `jsLowerCharExp`). -/
def jsLowerPairs : List (Char × Char) :=
  [('A', 'a'), ('B', 'b'), ('C', 'c'), ('D', 'd'), ('E', 'e'), ('F', 'f'),
   ('G', 'g'), ('H', 'h'), ('I', 'i'), ('J', 'j'), ('K', 'k'), ('L', 'l'),
   ('M', 'm'), ('N', 'n'), ('O', 'o'), ('P', 'p'), ('Q', 'q'), ('R', 'r'),
   ('S', 's'), ('T', 't'), ('U', 'u'), ('V', 'v'), ('W', 'w'), ('X', 'x'),
   ('Y', 'y'), ('Z', 'z'), ('Ç', 'ç'), ('Ğ', 'ğ'), ('Ö', 'ö'),
   ('Ş', 'ş'), ('Ü', 'ü')]

/-- Plain `toLowerCase()` of one character; JavaScript expands dotted `İ`
(U+0130) to `i` followed by combining dot above (U+0307). -/
def jsLowerCharExp (c : Char) : List Char :=
  if c = 'İ' then ['i', '̇'] else [(jsLowerPairs.lookup c).getD c]

/-- Plain `toLowerCase()` of a string. -/
def jsToLower (s : String) : String := ⟨s.data.flatMap jsLowerCharExp⟩

/-- The hard-coded word list of `populerAramalar` (src/index.js:390-396).
The source pairs each word with a random `aramaSayisi` and sorts by it, so
only the SET of words is fixed; the ordering is a run-time accident. -/
def populerKelimeler : List String :=
  ["merhaba", "teşekkür", "sevgi", "aşk", "mutluluk", "kelime",
   "türkçe", "dil", "edebiyat", "şiir", "roman", "hikaye",
   "bilim", "teknoloji", "sanat", "müzik", "resim", "heykel",
   "doğa", "hayvan", "bitki", "ağaç", "çiçek", "su", "hava",
   "toprak", "güneş", "ay", "yıldız", "gezegen", "evren"]

/-- `kelime.toLowerCase().startsWith(harf.toLowerCase())`, the per-letter
filter of `harfeGoreKelimeler` (src/index.js:345-348). -/
def harfFiltre (harf kelime : String) : Bool :=
  (jsToLower harf).data.isPrefixOf (jsToLower kelime).data

/-- The `data` object `harfeGoreKelimeler` builds, returns and caches
(src/index.js:351-364): the upper-cased letter, the requested page, the
limit the page was COMPUTED with (`sayfaBoyutu`), the page's word list and
its length. -/
structure HarfSonuc where
  harf : String
  sayfa : Nat
  sayfaBoyutu : Nat
  kelimeler : List String
  toplamKelime : Nat
deriving DecidableEq

/-- A view of the shared `NodeCache` restricted to the `harf_…` keys. -/
abbrev HarfCache := String → Option HarfSonuc

/-- The cache key `harf_${harf}_${sayfa}` (src/index.js:331) — note that it
OMITS the page size. -/
def harfCacheKey (harf : String) (sayfa : Nat) : String :=
  "harf_" ++ harf ++ "_" ++ toString sayfa

/-- Plain `toUpperCase()` on the modelled character domain (ASCII letters
and the precomposed Turkish letters; dotless `ı` maps to `I`). -/
def jsUpperPairs : List (Char × Char) :=
  [('a', 'A'), ('b', 'B'), ('c', 'C'), ('d', 'D'), ('e', 'E'), ('f', 'F'),
   ('g', 'G'), ('h', 'H'), ('i', 'I'), ('j', 'J'), ('k', 'K'), ('l', 'L'),
   ('m', 'M'), ('n', 'N'), ('o', 'O'), ('p', 'P'), ('q', 'Q'), ('r', 'R'),
   ('s', 'S'), ('t', 'T'), ('u', 'U'), ('v', 'V'), ('w', 'W'), ('x', 'X'),
   ('y', 'Y'), ('z', 'Z'), ('ç', 'Ç'), ('ğ', 'Ğ'), ('ı', 'I'), ('ö', 'Ö'),
   ('ş', 'Ş'), ('ü', 'Ü')]

/-- Plain `toUpperCase()` of a string. -/
def jsToUpper (s : String) : String :=
  ⟨s.data.map (fun c => (jsUpperPairs.lookup c).getD c)⟩

/-- `harfeGoreKelimeler` (src/index.js:330-376): an UNCONDITIONAL cache
read under `harf_${harf}_${sayfa}` returns a previously cached page
verbatim — since the key omits the limit, the hit may have been computed
with a DIFFERENT page size.  On a miss, filter the candidate pool (the data
of `populerAramalar(100)`, order randomized at run time) by the
case-insensitive first letter, slice `((sayfa-1)*limit, sayfa*limit)`
(modelled for `sayfa ≥ 1`, which the route and the default guarantee),
and cache the result under the same key.  The returned pair is the result
`data` object and the updated cache view. -/
def harfeGoreKelimeler (pool : List String) (hc : HarfCache) (harf : String)
    (sayfa limit : Nat) : HarfSonuc × HarfCache :=
  match hc (harfCacheKey harf sayfa) with
  | some cached => (cached, hc)
  | none =>
    let filtrelenmis :=
      ((pool.filter (harfFiltre harf)).drop ((sayfa - 1) * limit)).take limit
    let sonuc : HarfSonuc :=
      { harf := jsToUpper harf, sayfa := sayfa, sayfaBoyutu := limit,
        kelimeler := filtrelenmis, toplamKelime := filtrelenmis.length }
    (sonuc, fun k => if k = harfCacheKey harf sayfa then some sonuc else hc k)

lemma harfeGore_hit (pool : List String) (hc : HarfCache) (harf : String)
    (sayfa limit : Nat) (e : HarfSonuc)
    (hhit : hc (harfCacheKey harf sayfa) = some e) :
    harfeGoreKelimeler pool hc harf sayfa limit = (e, hc) := by
  unfold harfeGoreKelimeler
  rw [hhit]

lemma harfeGore_miss (pool : List String) (hc : HarfCache) (harf : String)
    (sayfa limit : Nat)
    (hmiss : hc (harfCacheKey harf sayfa) = none) :
    (harfeGoreKelimeler pool hc harf sayfa limit).1.kelimeler =
      ((pool.filter (harfFiltre harf)).drop ((sayfa - 1) * limit)).take limit := by
  unfold harfeGoreKelimeler
  rw [hmiss]

/-- The similarity filter of `benzerKelimeler` (src/index.js:291-297): the
normalized candidate differs from the normalized input AND (it starts with
the input's first three characters OR contains the input's characters 2-4). -/
def benzerFiltre (temizKelime : String) (k : String) : Bool :=
  let digerKelime := kelimeTemizleS k
  digerKelime != temizKelime &&
    ((temizKelime.data.take 3).isPrefixOf digerKelime.data ||
      strIncludes digerKelime ⟨(temizKelime.data.drop 1).take 3⟩)

/-- `benzerKelimeler` (src/index.js:277-321): normalize the input, take its
first letter (`charAt(0)`), fetch page 1 of size 50 of the per-letter
listing (possibly served from its cache), keep candidates passing
`benzerFiltre`, and truncate to `limit`.  Returns the similar-word list and
the cache view after the listing's read/write. -/
def benzerKelimeler (pool : List String) (hc : HarfCache) (kelime : String)
    (limit : Nat) : List String × HarfCache :=
  let temizKelime := kelimeTemizleS kelime
  let ilkHarf : String := ⟨temizKelime.data.take 1⟩
  let yanit := harfeGoreKelimeler pool hc ilkHarf 1 50
  ((yanit.1.kelimeler.filter (benzerFiltre temizKelime)).take limit, yanit.2)

lemma populer_fixed : ∀ c ∈ populerKelimeler, kelimeTemizleS c = c := by decide

/-- What the program guarantees of every `harf_…` cache entry: it was
computed by an earlier `harfeGoreKelimeler` call for the SAME letter and
page (the key determines both) over some arrangement of the popular list,
so its words lie in that list and pass that letter's filter. -/
def HarfCacheIyi (hc : HarfCache) (harf : String) (sayfa : Nat) : Prop :=
  ∀ e, hc (harfCacheKey harf sayfa) = some e →
    ∀ c ∈ e.kelimeler, c ∈ populerKelimeler ∧ harfFiltre harf c = true

lemma mem_harfeGoreKelimeler {pool : List String} {hc : HarfCache}
    {harf : String} {sayfa limit : Nat} {r : String}
    (hpool : ∀ c ∈ pool, c ∈ populerKelimeler)
    (hcache : HarfCacheIyi hc harf sayfa)
    (h : r ∈ (harfeGoreKelimeler pool hc harf sayfa limit).1.kelimeler) :
    r ∈ populerKelimeler ∧ harfFiltre harf r = true := by
  cases hhit : hc (harfCacheKey harf sayfa) with
  | some e =>
    rw [harfeGore_hit pool hc harf sayfa limit e hhit] at h
    exact hcache e hhit r h
  | none =>
    rw [harfeGore_miss pool hc harf sayfa limit hhit] at h
    have h1 : r ∈ pool.filter (harfFiltre harf) :=
      List.drop_subset _ _ (List.take_subset _ _ h)
    exact ⟨hpool _ (List.mem_filter.mp h1).1, (List.mem_filter.mp h1).2⟩

/-- C8 (confirmed): with the candidate pool drawn from the hard-coded
popular-word list (in any order — the source randomizes it) and any
`harf_…` cache state the program can produce, similar-word search returns
at most `limit` terms, never returns the normalized input term itself, and
every returned term passes the first-letter filter and the
shared-substring rule. -/
theorem claim8_thm (pool : List String) (hc : HarfCache) (kelime : String)
    (limit : Nat)
    (hpool : ∀ c ∈ pool, c ∈ populerKelimeler)
    (hcache : HarfCacheIyi hc ⟨(kelimeTemizleS kelime).data.take 1⟩ 1) :
    (benzerKelimeler pool hc kelime limit).1.length ≤ limit ∧
    kelimeTemizleS kelime ∉ (benzerKelimeler pool hc kelime limit).1 ∧
    ∀ r ∈ (benzerKelimeler pool hc kelime limit).1,
      harfFiltre ⟨(kelimeTemizleS kelime).data.take 1⟩ r = true ∧
      (((kelimeTemizleS kelime).data.take 3).isPrefixOf r.data = true ∨
        strIncludes r ⟨((kelimeTemizleS kelime).data.drop 1).take 3⟩ = true) := by
  set temiz := kelimeTemizleS kelime with htemiz
  have hbenzer : (benzerKelimeler pool hc kelime limit).1 =
      ((harfeGoreKelimeler pool hc ⟨temiz.data.take 1⟩ 1 50).1.kelimeler.filter
        (benzerFiltre temiz)).take limit := by
    rw [htemiz]; rfl
  have hmem : ∀ r ∈ (benzerKelimeler pool hc kelime limit).1,
      (r ∈ populerKelimeler ∧ harfFiltre ⟨temiz.data.take 1⟩ r = true) ∧
        benzerFiltre temiz r = true := by
    intro r hr
    rw [hbenzer] at hr
    have h1 := List.take_subset _ _ hr
    refine ⟨mem_harfeGoreKelimeler hpool ?_ (List.mem_filter.mp h1).1,
      (List.mem_filter.mp h1).2⟩
    rw [htemiz]
    exact hcache
  refine ⟨?_, ?_, ?_⟩
  · rw [hbenzer]
    exact List.length_take_le _ _
  · intro hself
    obtain ⟨⟨hp, -⟩, hf⟩ := hmem _ hself
    unfold benzerFiltre at hf
    obtain ⟨hne, -⟩ := Bool.and_eq_true_iff.mp hf
    rw [bne_iff_ne] at hne
    exact hne (populer_fixed _ hp)
  · intro r hr
    obtain ⟨⟨hp, hletter⟩, hf⟩ := hmem r hr
    unfold benzerFiltre at hf
    obtain ⟨-, hsub⟩ := Bool.and_eq_true_iff.mp hf
    have hfix : kelimeTemizleS r = r := populer_fixed _ hp
    rw [hfix] at hsub
    exact ⟨hletter, Bool.or_eq_true_iff.mp hsub⟩

/-- C8 witness at `kelime = "sevgi"`, `limit = 5`, pool = the popular list,
empty cache. -/
theorem claim8_witness :
    (benzerKelimeler populerKelimeler (fun _ => none) "sevgi" 5).1.length ≤ 5 ∧
    kelimeTemizleS "sevgi" ∉
      (benzerKelimeler populerKelimeler (fun _ => none) "sevgi" 5).1 ∧
    ∀ r ∈ (benzerKelimeler populerKelimeler (fun _ => none) "sevgi" 5).1,
      harfFiltre ⟨(kelimeTemizleS "sevgi").data.take 1⟩ r = true ∧
      (((kelimeTemizleS "sevgi").data.take 3).isPrefixOf r.data = true ∨
        strIncludes r ⟨((kelimeTemizleS "sevgi").data.drop 1).take 3⟩ = true) :=
  claim8_thm populerKelimeler (fun _ => none) "sevgi" 5 (fun _ hc => hc)
    (by intro e he; simp at he)

/-- The harf-cache after a fresh page-1 listing of the letter `h` at limit
50 — exactly the entry `benzerKelimeler` primes, since it always requests
page 1 with limit 50. -/
def hcachePrimed : HarfCache :=
  (harfeGoreKelimeler populerKelimeler (fun _ => none) "h" 1 50).2

/-- C9 counterexample: the claim promises at most `pageSize` terms and
disjoint pages 1 and 2 (given at least `pageSize + 1` matching candidates).
The popular list holds 4 words starting with `h`; priming the cache with a
page-1 listing at limit 50 (as `benzerKelimeler` does) stores it under
`harf_h_1`, a key that omits the limit — so a later page-1 call with
`pageSize = 2` returns all 4 cached terms (more than `pageSize`), and the
word `"hayvan"` appears on that page 1 AND on the freshly computed page 2,
refuting disjointness over the same pool. -/
theorem claim9_cex :
    populerKelimeler.Nodup ∧
    (populerKelimeler.filter (harfFiltre "h")).length = 4 ∧
    (harfeGoreKelimeler populerKelimeler hcachePrimed "h" 1 2).1.kelimeler.length = 4 ∧
    "hayvan" ∈ (harfeGoreKelimeler populerKelimeler hcachePrimed "h" 1 2).1.kelimeler ∧
    "hayvan" ∈ (harfeGoreKelimeler populerKelimeler hcachePrimed "h" 2 2).1.kelimeler := by
  exact ⟨by decide, by decide, by decide, by decide, by decide⟩

/-- C9 amended: on a cache miss for `harf_${harf}_${sayfa}`, words-by-letter
returns at most `pageSize` terms, all passing the case-insensitive
first-letter filter, and freshly computed pages 1 and 2 over the same
duplicate-free pool are disjoint; but the result is cached unconditionally
under a key that OMITS the page size, and any later call with the same
letter and page returns the cached entry verbatim whatever its page size —
which is how a page primed at another limit can exceed `pageSize` and
overlap the other page. -/
theorem claim9_thm (pool : List String) (hc : HarfCache) (harf : String)
    (sayfa limit : Nat) (hnd : pool.Nodup) :
    (hc (harfCacheKey harf sayfa) = none →
      (harfeGoreKelimeler pool hc harf sayfa limit).1.kelimeler.length ≤ limit ∧
      ∀ r ∈ (harfeGoreKelimeler pool hc harf sayfa limit).1.kelimeler,
        harfFiltre harf r = true) ∧
    (hc (harfCacheKey harf 1) = none → hc (harfCacheKey harf 2) = none →
      ∀ r ∈ (harfeGoreKelimeler pool hc harf 1 limit).1.kelimeler,
        r ∉ (harfeGoreKelimeler pool hc harf 2 limit).1.kelimeler) ∧
    (∀ e, hc (harfCacheKey harf sayfa) = some e →
      harfeGoreKelimeler pool hc harf sayfa limit = (e, hc)) := by
  refine ⟨?_, ?_, ?_⟩
  · intro hmiss
    rw [harfeGore_miss pool hc harf sayfa limit hmiss]
    refine ⟨List.length_take_le _ _, ?_⟩
    intro r hr
    have h1 : r ∈ pool.filter (harfFiltre harf) :=
      List.drop_subset _ _ (List.take_subset _ _ hr)
    exact (List.mem_filter.mp h1).2
  · intro hm1 hm2 r hr1 hr2
    rw [harfeGore_miss pool hc harf 1 limit hm1] at hr1
    rw [harfeGore_miss pool hc harf 2 limit hm2] at hr2
    have hFnd : (pool.filter (harfFiltre harf)).Nodup := List.Nodup.filter _ hnd
    have hdisj : List.Disjoint ((pool.filter (harfFiltre harf)).take limit)
        ((pool.filter (harfFiltre harf)).drop limit) :=
      List.disjoint_take_drop hFnd (le_refl limit)
    have hr1f : r ∈ (pool.filter (harfFiltre harf)).take limit := by simpa using hr1
    have hr2f : r ∈ (pool.filter (harfFiltre harf)).drop limit := by
      have := List.take_subset _ _ hr2
      simpa using this
    exact hdisj hr1f hr2f
  · intro e he
    exact harfeGore_hit pool hc harf sayfa limit e he

/-- C9 witness: fresh (uncached) page-1 listing of `"a"` at page size 10. -/
theorem claim9_witness :
    (harfeGoreKelimeler populerKelimeler (fun _ => none) "a" 1 10).1.kelimeler.length ≤ 10 ∧
    ∀ r ∈ (harfeGoreKelimeler populerKelimeler (fun _ => none) "a" 1 10).1.kelimeler,
      harfFiltre "a" r = true :=
  (claim9_thm populerKelimeler (fun _ => none) "a" 1 10 (by decide)).1 rfl

/-! ### The aggregation fan-out (`tumVerileriGetir` and `ara`; C1-C4) -/

/-- A settled promise, as delivered by `Promise.allSettled`. -/
inductive Settled (α : Type) where
  | fulfilled (data : α) : Settled α
  | rejected : Settled α
deriving DecidableEq

/-- `result.status === 'fulfilled'`. -/
def Settled.isFulfilled {α : Type} : Settled α → Bool
  | .fulfilled _ => true
  | .rejected => false

/-- The characters `encodeURIComponent` leaves unencoded. -/
def encUnreserved (c : Char) : Bool :=
  (decide (0x41 ≤ c.val) && decide (c.val ≤ 0x5a)) ||
  (decide (0x61 ≤ c.val) && decide (c.val ≤ 0x7a)) ||
  (decide (0x30 ≤ c.val) && decide (c.val ≤ 0x39)) ||
  c == '-' || c == '_' || c == '.' || c == '!' || c == '~' || c == '*' ||
  c == '\'' || c == '(' || c == ')'

/-- Upper-case hexadecimal digit. -/
def hexDigit (n : Nat) : Char :=
  if n < 10 then Char.ofNat (48 + n) else Char.ofNat (55 + n)

/-- The UTF-8 byte sequence of one character. -/
def utf8Bytes (c : Char) : List Nat :=
  let n := c.toNat
  if n < 0x80 then [n]
  else if n < 0x800 then [0xc0 + n / 0x40, 0x80 + n % 0x40]
  else if n < 0x10000 then
    [0xe0 + n / 0x1000, 0x80 + (n / 0x40) % 0x40, 0x80 + n % 0x40]
  else
    [0xf0 + n / 0x40000, 0x80 + (n / 0x1000) % 0x40, 0x80 + (n / 0x40) % 0x40,
     0x80 + n % 0x40]

/-- `encodeURIComponent`. -/
def encodeURIComponent (s : String) : String :=
  ⟨s.data.flatMap (fun c =>
    if encUnreserved c then [c]
    else (utf8Bytes c).flatMap
      (fun b => ['%', hexDigit (b / 16), hexDigit (b % 16)]))⟩

example : encodeURIComponent "aşk" = "a%C5%9Fk" := by decide

/-- Request URLs of the eight fan-out legs (src/index.js:529-538) plus the
`ses` and `yazim` endpoints, relative to the base URL. -/
def gtsUrl (k : String) : String := "gts?ara=" ++ encodeURIComponent k

def atasozuUrl (k : String) : String := "atasozu?ara=" ++ encodeURIComponent k

def deyimUrl (k : String) : String := "deyim?ara=" ++ encodeURIComponent k

def derlemeUrl (k : String) : String := "derleme?ara=" ++ encodeURIComponent k

def terimUrl (k : String) : String :=
  "terim?eser_ad=t%C3%BCm%C3%BC&ara=" ++ encodeURIComponent k

def batiUrl (k : String) : String := "bati?ara=" ++ encodeURIComponent k

def kilavuzUrl (k : String) : String :=
  "kilavuz?prm=ysk&ara=" ++ encodeURIComponent k

def etmsUrl (k : String) : String := "etms?ara=" ++ encodeURIComponent k

def sesUrl (k : String) : String := "ses?ara=" ++ encodeURIComponent k

def yazimUrl (k : String) : String := "yazim?ara=" ++ encodeURIComponent k

/-- One entry of a GTS sense's `ozelliklerListe`. -/
structure GtsOzellik where
  tam_adi : Option String
deriving DecidableEq

/-- One entry of a GTS record's `anlamlarListe`. -/
structure GtsAnlam where
  anlam : String
  orneklerListe : Option (List String)
  ozelliklerListe : Option (List GtsOzellik)
  fiiller : Option (List String)
  atasozleri : Option (List String)
deriving DecidableEq

/-- One record of the primary-dictionary (GTS) response body. -/
structure GtsEntry where
  madde : Option String
  lisan : Option String
  ozel_mi : Option String
  cogul_mu : Option String
  birlesikler : Option String
  anlamlarListe : Option (List GtsAnlam)
deriving DecidableEq

/-- `o.tam_adi && o.tam_adi.includes(ad)` over a feature list. -/
def ozellikIceriyor (ozellikler : List GtsOzellik) (ad : String) : Bool :=
  ozellikler.any (fun o =>
    match o.tam_adi with
    | some s => (s != "") && strIncludes s ad
    | none => false)

/-- `_kullanimTuruBelirle` (src/index.js:630-642): first match wins in the
fixed order isim, sıfat, zarf, fiil, edat, bağlaç, ünlem. -/
def kullanimTuruBelirle (anlam : GtsAnlam) : Option String :=
  let ozellikler := anlam.ozelliklerListe.getD []
  if ozellikIceriyor ozellikler "isim" then some "isim"
  else if ozellikIceriyor ozellikler "sıfat" then some "sıfat"
  else if ozellikIceriyor ozellikler "zarf" then some "zarf"
  else if ozellikIceriyor ozellikler "fiil" then some "fiil"
  else if ozellikIceriyor ozellikler "edat" then some "edat"
  else if ozellikIceriyor ozellikler "bağlaç" then some "bağlaç"
  else if ozellikIceriyor ozellikler "ünlem" then some "ünlem"
  else none

/-- The `temelBilgiler` sub-object of the aggregated record. -/
structure TemelBilgiler where
  madde : Option String
  lisan : Option String
  ozel_mi : Option String
  cogul_mu : Option String
  birlesikler : Option String
deriving DecidableEq

/-- One processed sense in `processedData.anlamlar`. -/
structure AnlamOut where
  sira : Nat
  anlam : String
  ornekler : List String
  kullanim : Option String
  fiiller : List String
  atasozleri : List String
deriving DecidableEq

/-- The metadata attached to the aggregated record at the end of
`tumVerileriGetir` (src/index.js:586-590). -/
structure IslemMeta where
  islemSuresi : String
  veriKaynaklari : Nat
  tamVeri : Bool
deriving DecidableEq

/-- The aggregated record built by `tumVerileriGetir` (src/index.js:543-554):
these are exactly the fields of `processedData` — note there are NO fields
for the compiled-corpus (`derleme`), terminology (`terim`), foreign-origin
(`bati`) or guide (`kilavuz`) legs, and `etimoloji` starts as null (not as
an empty list).  `telaffuz`/`sesDosyasi` are only written on the optional
pronunciation path; `metadata` is attached just before returning. -/
structure ProcessedData where
  kelime : String
  temelBilgiler : Option TemelBilgiler
  anlamlar : List AnlamOut
  ornekler : List String
  atasozleri : List String
  deyimler : List String
  birlesikler : List String
  etimoloji : Option (List String)
  telaffuz : Option String
  sesDosyasi : Option String
  kullanimTuru : List String
  metadata : Option IslemMeta
deriving DecidableEq

/-- `[...new Set(xs)]`: deduplication keeping first occurrences. -/
def firstDedupAux (seen : List String) : List String → List String
  | [] => []
  | a :: l =>
    if a ∈ seen then firstDedupAux seen l
    else a :: firstDedupAux (a :: seen) l

/-- `s.split(',')`. -/
def splitVirgul (s : String) : List String :=
  (splitOnComma s.data).map (fun l => (⟨l⟩ : String))

/-- `s.trim()`. -/
def strTrim (s : String) : String := ⟨trimL s.data⟩

/-- `_temelBilgilerIsle` (src/index.js:595-628): on a non-empty GTS payload,
fill `temelBilgiler` from the first record; if its `anlamlarListe` is
present, build the numbered senses, flatten their examples, and collect the
distinct truthy usage tags; if `birlesikler` is a non-empty string, split it
on commas, trim, and drop empties. -/
def temelBilgilerIsle (data : List GtsEntry) (pd : ProcessedData) :
    ProcessedData :=
  match data with
  | [] => pd
  | anaVeri :: _ =>
    let tb : TemelBilgiler :=
      { madde := anaVeri.madde, lisan := anaVeri.lisan,
        ozel_mi := anaVeri.ozel_mi, cogul_mu := anaVeri.cogul_mu,
        birlesikler := anaVeri.birlesikler }
    let pd1 := { pd with temelBilgiler := some tb }
    let pd2 :=
      match anaVeri.anlamlarListe with
      | some liste =>
        let anlamlar := liste.enum.map (fun p =>
          { sira := p.1 + 1, anlam := p.2.anlam,
            ornekler := p.2.orneklerListe.getD [],
            kullanim := kullanimTuruBelirle p.2,
            fiiller := p.2.fiiller.getD [],
            atasozleri := p.2.atasozleri.getD [] : AnlamOut })
        { pd1 with
            anlamlar := anlamlar,
            ornekler := anlamlar.flatMap (fun a => a.ornekler),
            kullanimTuru := firstDedupAux []
              (((anlamlar.map (fun a => a.kullanim)).filterMap id).filter
                (fun s => s != "")) }
      | none => pd1
    match anaVeri.birlesikler with
    | some s =>
      if s = "" then pd2
      else { pd2 with birlesikler :=
        ((splitVirgul s).map strTrim).filter (fun b => b != "") }
    | none => pd2

/-- The response body shape of the `ses` endpoint. -/
structure SesYanit where
  sesDosyasi : Option String
  telaffuz : Option String
  link : Option String
deriving DecidableEq

/-- The `data` object `sesGetir` returns on success. -/
structure SesData where
  kelime : String
  sesDosyasi : Option String
  telaffuz : Option String
  dinlemeLinki : String
deriving DecidableEq

/-- The remote TDK service as a deterministic map from request URL to the
settled outcome of `this.client.get(url)`.  `Settled.fulfilled none` models
a fulfilled response whose `data` is falsy (null, undefined, empty body). -/
structure RemoteService where
  gts : String → Settled (Option (List GtsEntry))
  atasozu : String → Settled (Option (List String))
  deyim : String → Settled (Option (List String))
  derleme : String → Settled (Option (List String))
  terim : String → Settled (Option (List String))
  bati : String → Settled (Option (List String))
  kilavuz : String → Settled (Option (List String))
  etms : String → Settled (Option (List String))
  ses : String → Settled (Option SesYanit)
  yazim : String → Settled (Option (List String))

/-- JavaScript `x || y` for a nullable string `x`. -/
def jsOrStr (x : Option String) (y : String) : String :=
  match x with
  | some s => if s = "" then y else s
  | none => y

/-- JavaScript `x || null` for a nullable string `x`. -/
def jsOrNull (x : Option String) : Option String :=
  match x with
  | some s => if s = "" then none else some s
  | none => none

/-- `sesGetir` (src/index.js:459-484): `none` is the `success:false` branch
(a rejected call, or a falsy response body whose property access throws
inside the `try`). -/
def sesGetir (svc : RemoteService) (kelime : String) : Option SesData :=
  match svc.ses (sesUrl kelime) with
  | .fulfilled (some d) =>
    some { kelime := kelime, sesDosyasi := jsOrNull d.sesDosyasi,
           telaffuz := jsOrNull d.telaffuz,
           dinlemeLinki := jsOrStr d.link
             ("https://sozluk.gov.tr/" ++ "ses/" ++ encodeURIComponent kelime) }
  | _ => none

/-- The options object of `ara` as the `/kelime` route constructs it:
`telaffuz` boolean and an optional `cacheTTL`. -/
structure AraOptions where
  telaffuz : Bool
  cacheTTL : Option Nat
deriving DecidableEq

/-- `JSON.stringify(options)` for an `AraOptions` object (an absent
`cacheTTL` is `undefined` and is omitted by `JSON.stringify`). -/
def stringifyOptions (o : AraOptions) : String :=
  "\x7b\"telaffuz\":" ++ (if o.telaffuz then "true" else "false") ++
    (match o.cacheTTL with
     | some n => ",\"cacheTTL\":" ++ toString n
     | none => "") ++ "\x7d"

/-- `tumVerileriGetir` (src/index.js:525-593).  Returns the processed record
together with the list of request URLs issued, in the order the `requests`
array issues them (the trace witnesses how many times each leg's remote
operation is invoked).  Each leg is the single `this.client.get(...)` of the
`requests` array; the constructor's `retryCount` is never consulted.  The
`forEach` switch handles only the keys `temel`, `atasozleri`, `deyimler`
and `etimoloji`; the fulfilled payloads of `derleme`, `terim`, `bati` and
`kilavuz` are never stored. -/
def tumVerileriGetir (svc : RemoteService) (kelime : String)
    (options : AraOptions) (elapsedMs : Nat) : ProcessedData × List String :=
  let rTemel := svc.gts (gtsUrl kelime)
  let rAta := svc.atasozu (atasozuUrl kelime)
  let rDeyim := svc.deyim (deyimUrl kelime)
  let rDerleme := svc.derleme (derlemeUrl kelime)
  let rTerim := svc.terim (terimUrl kelime)
  let rBati := svc.bati (batiUrl kelime)
  let rKilavuz := svc.kilavuz (kilavuzUrl kelime)
  let rEtms := svc.etms (etmsUrl kelime)
  let trace0 := [gtsUrl kelime, atasozuUrl kelime, deyimUrl kelime,
    derlemeUrl kelime, terimUrl kelime, batiUrl kelime, kilavuzUrl kelime,
    etmsUrl kelime]
  let pd0 : ProcessedData :=
    { kelime := kelime, temelBilgiler := none, anlamlar := [], ornekler := [],
      atasozleri := [], deyimler := [], birlesikler := [], etimoloji := none,
      telaffuz := none, sesDosyasi := none, kullanimTuru := [],
      metadata := none }
  let pd1 := match rTemel with
    | .fulfilled (some d) => temelBilgilerIsle d pd0
    | _ => pd0
  let pd2 := match rAta with
    | .fulfilled (some d) => { pd1 with atasozleri := d }
    | _ => pd1
  let pd3 := match rDeyim with
    | .fulfilled (some d) => { pd2 with deyimler := d }
    | _ => pd2
  let pd4 := match rEtms with
    | .fulfilled (some d) => { pd3 with etimoloji := some d }
    | _ => pd3
  let sonuc := if options.telaffuz then
      match sesGetir svc kelime with
      | some sd =>
        ({ pd4 with telaffuz := sd.telaffuz, sesDosyasi := sd.sesDosyasi },
          trace0 ++ [sesUrl kelime])
      | none => (pd4, trace0 ++ [sesUrl kelime])
    else (pd4, trace0)
  let statuses := [rTemel.isFulfilled, rAta.isFulfilled, rDeyim.isFulfilled,
    rDerleme.isFulfilled, rTerim.isFulfilled, rBati.isFulfilled,
    rKilavuz.isFulfilled, rEtms.isFulfilled]
  let meta : IslemMeta :=
    { islemSuresi := toString elapsedMs ++ "ms",
      veriKaynaklari := (statuses.filter id).length,
      tamVeri := statuses.all id }
  ({ sonuc.1 with metadata := some meta }, sonuc.2)

/-- The error object `ara` returns in its `catch` branch. -/
structure AraHata where
  message : String
  details : String
  code : String
deriving DecidableEq

/-- The envelope `ara` returns.  `searchWord` is the normalized term on the
success path; the constant `source`/`version` strings and the wall-clock
timestamp of the metadata are elided.  The embedded pipeline is total
(`Promise.allSettled` absorbs leg failures and every helper catches), so
the `catch` branch of `ara` (src/index.js:132-146) is unreachable and
`error` is `none` on every path. -/
structure AraResult where
  success : Bool
  data : Option ProcessedData
  error : Option AraHata
  searchWord : String
deriving DecidableEq

/-- The cache key of `ara` (src/index.js:101). -/
def araCacheKey (word : String) (o : AraOptions) : String :=
  "ara_" ++ word ++ "_" ++ stringifyOptions o

/-- `ara` (src/index.js:100-147): optional cache hit, else normalize the
word and run the fan-out; there is no validation of the normalized term.
The second component is the list of remote request URLs issued. -/
def ara (svc : RemoteService) (cacheEnabled : Bool)
    (cache : String → Option AraResult) (word : String) (o : AraOptions)
    (elapsedMs : Nat) : AraResult × List String :=
  let cached := if cacheEnabled then cache (araCacheKey word o) else none
  match cached with
  | some r => (r, [])
  | none =>
    let temizKelime := kelimeTemizleS word
    let vt := tumVerileriGetir svc temizKelime o elapsedMs
    ({ success := true, data := some vt.1, error := none,
       searchWord := temizKelime }, vt.2)

/-- Read the completeness flag off an aggregated record. -/
def tamVeriOf (pd : ProcessedData) : Bool :=
  match pd.metadata with
  | some m => m.tamVeri
  | none => false

/-- The constructor default `this.retryCount = options.retryCount || 3`
(src/index.js:18), stored but never read afterwards. -/
def defaultRetryCount : Nat := 3

lemma temelBilgilerIsle_atasozleri (d : List GtsEntry) (pd : ProcessedData) :
    (temelBilgilerIsle d pd).atasozleri = pd.atasozleri := by
  unfold temelBilgilerIsle
  cases d with
  | nil => rfl
  | cons a tl =>
    cases ha : a.anlamlarListe with
    | none =>
      cases hb : a.birlesikler with
      | none => simp [ha, hb]
      | some s => by_cases hs : s = "" <;> simp [ha, hb, hs]
    | some liste =>
      cases hb : a.birlesikler with
      | none => simp [ha, hb]
      | some s => by_cases hs : s = "" <;> simp [ha, hb, hs]

lemma temelBilgilerIsle_deyimler (d : List GtsEntry) (pd : ProcessedData) :
    (temelBilgilerIsle d pd).deyimler = pd.deyimler := by
  unfold temelBilgilerIsle
  cases d with
  | nil => rfl
  | cons a tl =>
    cases ha : a.anlamlarListe with
    | none =>
      cases hb : a.birlesikler with
      | none => simp [ha, hb]
      | some s => by_cases hs : s = "" <;> simp [ha, hb, hs]
    | some liste =>
      cases hb : a.birlesikler with
      | none => simp [ha, hb]
      | some s => by_cases hs : s = "" <;> simp [ha, hb, hs]

lemma temelBilgilerIsle_etimoloji (d : List GtsEntry) (pd : ProcessedData) :
    (temelBilgilerIsle d pd).etimoloji = pd.etimoloji := by
  unfold temelBilgilerIsle
  cases d with
  | nil => rfl
  | cons a tl =>
    cases ha : a.anlamlarListe with
    | none =>
      cases hb : a.birlesikler with
      | none => simp [ha, hb]
      | some s => by_cases hs : s = "" <;> simp [ha, hb, hs]
    | some liste =>
      cases hb : a.birlesikler with
      | none => simp [ha, hb]
      | some s => by_cases hs : s = "" <;> simp [ha, hb, hs]

/-- C2 (confirmed): the `tamVeri` flag of the aggregated record is true if
and only if every one of the eight issued sub-dictionary queries settled
fulfilled — equivalently false iff at least one leg was rejected
(`results.every(r => r.status === 'fulfilled')`, src/index.js:589). -/
theorem claim2_thm (svc : RemoteService) (kelime : String) (o : AraOptions)
    (e : Nat) :
    tamVeriOf (tumVerileriGetir svc kelime o e).1 = true ↔
      ((svc.gts (gtsUrl kelime)).isFulfilled = true ∧
       (svc.atasozu (atasozuUrl kelime)).isFulfilled = true ∧
       (svc.deyim (deyimUrl kelime)).isFulfilled = true ∧
       (svc.derleme (derlemeUrl kelime)).isFulfilled = true ∧
       (svc.terim (terimUrl kelime)).isFulfilled = true ∧
       (svc.bati (batiUrl kelime)).isFulfilled = true ∧
       (svc.kilavuz (kilavuzUrl kelime)).isFulfilled = true ∧
       (svc.etms (etmsUrl kelime)).isFulfilled = true) := by
  simp [tumVerileriGetir, tamVeriOf, List.all_cons, List.all_nil,
    Bool.and_eq_true, and_assoc]

/-- C1 (corrected): of the seven non-primary legs only the proverb and idiom
payloads are carried through as lists defaulting to `[]`; the etymology
field carries its payload but defaults to null (`none`), and the
compiled-corpus, terminology, foreign-origin and guide legs are queried yet
their payloads are never stored — the record's content is invariant under
changing those four legs' payloads (only their settled status feeds the
metadata counters).  Each carried field depends only on its own leg, so a
field whose leg succeeded is populated even when siblings failed. -/
theorem claim1_thm (svc : RemoteService) (kelime : String) (o : AraOptions)
    (e : Nat) :
    ((tumVerileriGetir svc kelime o e).1.atasozleri =
      (match svc.atasozu (atasozuUrl kelime) with
       | .fulfilled (some d) => d
       | _ => [])) ∧
    ((tumVerileriGetir svc kelime o e).1.deyimler =
      (match svc.deyim (deyimUrl kelime) with
       | .fulfilled (some d) => d
       | _ => [])) ∧
    ((tumVerileriGetir svc kelime o e).1.etimoloji =
      (match svc.etms (etmsUrl kelime) with
       | .fulfilled (some d) => some d
       | _ => none)) ∧
    (∀ svc' : RemoteService,
      svc'.gts = svc.gts → svc'.atasozu = svc.atasozu →
      svc'.deyim = svc.deyim → svc'.etms = svc.etms → svc'.ses = svc.ses →
      (∀ u, (svc'.derleme u).isFulfilled = (svc.derleme u).isFulfilled) →
      (∀ u, (svc'.terim u).isFulfilled = (svc.terim u).isFulfilled) →
      (∀ u, (svc'.bati u).isFulfilled = (svc.bati u).isFulfilled) →
      (∀ u, (svc'.kilavuz u).isFulfilled = (svc.kilavuz u).isFulfilled) →
      (tumVerileriGetir svc' kelime o e).1 = (tumVerileriGetir svc kelime o e).1) := by
  refine ⟨?_, ?_, ?_, ?_⟩
  · unfold tumVerileriGetir
    repeat' (first | split | simp_all [temelBilgilerIsle_atasozleri])
  · unfold tumVerileriGetir
    repeat' (first | split | simp_all [temelBilgilerIsle_deyimler])
  · unfold tumVerileriGetir
    repeat' (first | split | simp_all [temelBilgilerIsle_etimoloji])
  · intro svc' hg ha hd he hs hder hter hbat hkil
    have hses : sesGetir svc' kelime = sesGetir svc kelime := by
      unfold sesGetir; rw [hs]
    simp only [tumVerileriGetir, hg, ha, hd, he, hses, hder, hter, hbat, hkil]

/-- A concrete always-fulfilled service with distinct leg payloads. -/
def svcA : RemoteService :=
  { gts := fun _ => .fulfilled (some []),
    atasozu := fun _ => .fulfilled (some ["atasozu-a"]),
    deyim := fun _ => .fulfilled (some ["deyim-a"]),
    derleme := fun _ => .fulfilled (some ["derleme-a"]),
    terim := fun _ => .fulfilled (some ["terim-a"]),
    bati := fun _ => .fulfilled (some ["bati-a"]),
    kilavuz := fun _ => .fulfilled (some ["kilavuz-a"]),
    etms := fun _ => .fulfilled (some ["etimoloji-a"]),
    ses := fun _ => .fulfilled none,
    yazim := fun _ => .fulfilled (some []) }

/-- `svcA` with a different compiled-corpus payload. -/
def svcB : RemoteService :=
  { svcA with derleme := fun _ => .fulfilled (some ["derleme-b"]) }

/-- `svcA` with the etymology leg failing. -/
def svcEtmsYok : RemoteService :=
  { svcA with etms := fun _ => .rejected }

/-- A concrete service on which every remote call fails. -/
def svcRed : RemoteService :=
  { gts := fun _ => .rejected, atasozu := fun _ => .rejected,
    deyim := fun _ => .rejected, derleme := fun _ => .rejected,
    terim := fun _ => .rejected, bati := fun _ => .rejected,
    kilavuz := fun _ => .rejected, etms := fun _ => .rejected,
    ses := fun _ => .rejected, yazim := fun _ => .rejected }

/-- C1 counterexample: the claim says each of the compiled-corpus,
terminology, foreign-origin and guide legs has a field populated with its
payload, and that a failed etymology leg defaults to an EMPTY LIST.  In the
code, two services differing only in the compiled-corpus payload produce
identical records (the payload is discarded, refuting "populated"), and a
failed etymology leg leaves `etimoloji` at null (`none`), not `[]` — while
the sibling proverb field is still populated. -/
theorem claim1_cex :
    (tumVerileriGetir svcA "kalem" ⟨false, none⟩ 0).1 =
      (tumVerileriGetir svcB "kalem" ⟨false, none⟩ 0).1 ∧
    svcA.derleme (derlemeUrl "kalem") ≠ svcB.derleme (derlemeUrl "kalem") ∧
    (tumVerileriGetir svcEtmsYok "kalem" ⟨false, none⟩ 0).1.etimoloji = none ∧
    (tumVerileriGetir svcEtmsYok "kalem" ⟨false, none⟩ 0).1.atasozleri =
      ["atasozu-a"] ∧
    tamVeriOf (tumVerileriGetir svcEtmsYok "kalem" ⟨false, none⟩ 0).1 = false := by
  exact ⟨by decide, by decide, by decide, by decide, by decide⟩

/-- C1 witness: the record is unchanged when only the compiled-corpus
payload differs. -/
theorem claim1_witness :
    (tumVerileriGetir svcB "kalem" ⟨false, none⟩ 0).1 =
      (tumVerileriGetir svcA "kalem" ⟨false, none⟩ 0).1 :=
  (claim1_thm svcA "kalem" ⟨false, none⟩ 0).2.2.2 svcB rfl rfl rfl rfl rfl
    (fun _ => rfl) (fun _ => rfl) (fun _ => rfl) (fun _ => rfl)

lemma append_ne_right {p q : String} (s : String) (hne : p ≠ q) :
    p ++ s ≠ q ++ s := by
  intro h
  apply hne
  have hd : p.data ++ s.data = q.data ++ s.data := by
    have h2 := congrArg String.data h
    simpa [String.data_append] using h2
  have h3 : p.data = q.data := List.append_cancel_right hd
  cases p
  cases q
  exact congrArg String.mk h3

lemma urls_ne_derleme (kelime : String) :
    gtsUrl kelime ≠ derlemeUrl kelime ∧
    atasozuUrl kelime ≠ derlemeUrl kelime ∧
    deyimUrl kelime ≠ derlemeUrl kelime ∧
    terimUrl kelime ≠ derlemeUrl kelime ∧
    batiUrl kelime ≠ derlemeUrl kelime ∧
    kilavuzUrl kelime ≠ derlemeUrl kelime ∧
    etmsUrl kelime ≠ derlemeUrl kelime ∧
    sesUrl kelime ≠ derlemeUrl kelime :=
  ⟨append_ne_right _ (by decide), append_ne_right _ (by decide),
   append_ne_right _ (by decide), append_ne_right _ (by decide),
   append_ne_right _ (by decide), append_ne_right _ (by decide),
   append_ne_right _ (by decide), append_ne_right _ (by decide)⟩

/-- C3 (code_bug): the README documents a retry mechanism and the
constructor stores `retryCount` (default 3), but a leg whose remote call
always fails is invoked exactly ONCE — the fan-out trace contains a single
request for the failing leg and no retry ever happens. -/
theorem claim3_thm (svc : RemoteService) (kelime : String) (o : AraOptions)
    (e : Nat)
    (hfail : svc.derleme (derlemeUrl kelime) = Settled.rejected) :
    (tumVerileriGetir svc kelime o e).2.count (derlemeUrl kelime) = 1 ∧
    defaultRetryCount = 3 := by
  obtain ⟨h1, h2, h3, h4, h5, h6, h7, h8⟩ := urls_ne_derleme kelime
  refine ⟨?_, rfl⟩
  unfold tumVerileriGetir
  by_cases ht : o.telaffuz = true
  · simp only [ht, if_true]
    cases sesGetir svc kelime <;>
      simp [List.count_cons, List.count_nil, h1, h2, h3, h4, h5, h6, h7, h8]
  · simp only [Bool.not_eq_true] at ht
    simp [ht, List.count_cons, List.count_nil, h1, h2, h3, h4, h5, h6, h7]

/-- C3 witness: on the always-failing service, the compiled-corpus leg of
`tumVerileriGetir svcRed "kalem"` is invoked exactly once although the
configured default retry count is 3. -/
theorem claim3_witness :
    (tumVerileriGetir svcRed "kalem" ⟨false, none⟩ 0).2.count
        (derlemeUrl "kalem") = 1 ∧
    defaultRetryCount = 3 :=
  claim3_thm svcRed "kalem" ⟨false, none⟩ 0 rfl

/-- C4 (corrected): `ara` performs NO validation — an input whose
normalization is empty is queried like any other (here `"?!."`, which
normalizes to `""`, still issues all 8 sub-dictionary calls and returns a
success envelope), refuting "fails with a validation error before any
remote call is made". -/
theorem claim4_cex :
    kelimeTemizleS "?!." = "" ∧
    (ara svcRed false (fun _ => none) "?!." ⟨false, none⟩ 0).1.success = true ∧
    (ara svcRed false (fun _ => none) "?!." ⟨false, none⟩ 0).2.length = 8 := by
  exact ⟨by decide, rfl, by decide⟩

/-- C4 amended: for EVERY input word — including those whose normalization
is empty — an uncached lookup issues all 8 sub-dictionary requests (9 with
pronunciation) and returns a success envelope with no error object;
sub-dictionary failures never propagate to the caller. -/
theorem claim4_thm (svc : RemoteService) (cache : String → Option AraResult)
    (word : String) (o : AraOptions) (e : Nat) :
    (ara svc false cache word o e).1.success = true ∧
    (ara svc false cache word o e).1.error = none ∧
    (ara svc false cache word o e).2.length = if o.telaffuz then 9 else 8 := by
  refine ⟨rfl, rfl, ?_⟩
  show (tumVerileriGetir svc (kelimeTemizleS word) o e).2.length = _
  unfold tumVerileriGetir
  by_cases ht : o.telaffuz = true
  · simp only [ht, if_true]
    cases sesGetir svc (kelimeTemizleS word) <;> simp
  · simp only [Bool.not_eq_true] at ht
    simp [ht]

/-! ### Spell checking (`yazimDenetimi`; C10) -/

/-- Maximal non-whitespace runs of a character list:
`metin.split(/\s+/).filter(k => k.trim())` keeps exactly these. -/
def splitWords (acc : List Char) : List Char → List (List Char)
  | [] => if acc.isEmpty then [] else [acc.reverse]
  | c :: rest =>
    if isWs c then
      if acc.isEmpty then splitWords [] rest
      else acc.reverse :: splitWords [] rest
    else splitWords (c :: acc) rest

/-- JavaScript number semantics needed by `yazimDenetimi`: NaN, Infinity,
or an (exact rational stand-in for a) numeric value. -/
inductive JsNum where
  | nan : JsNum
  | inf : JsNum
  | val (q : ℚ) : JsNum
deriving DecidableEq

/-- Division of two counts: `0/0` is NaN, `x/0` for positive `x` is
Infinity. -/
def jsDivNat (a b : Nat) : JsNum :=
  if b = 0 then (if a = 0 then .nan else .inf) else .val ((a : ℚ) / (b : ℚ))

/-- Multiplication by 100. -/
def jsMul100 : JsNum → JsNum
  | .nan => .nan
  | .inf => .inf
  | .val q => .val (q * 100)

/-- `toFixed(2)`: `NaN.toFixed(2)` is the string `"NaN"` and
`Infinity.toFixed(2)` is `"Infinity"`; the numeric case renders two
decimals (the model rounds the exact rational where the source rounds the
IEEE double — no claim depends on those digits). -/
def jsToFixed2 : JsNum → String
  | .nan => "NaN"
  | .inf => "Infinity"
  | .val q =>
    let n : Int := Int.floor (q * 100 + 1 / 2)
    toString (n / 100) ++ "." ++
      ((if (n % 100).natAbs < 10 then "0" else "") ++ toString (n % 100).natAbs)

/-- One per-word result of `yazimDenetimi`. -/
structure YazimSonucu where
  kelime : String
  dogru : Bool
  oneriler : List String
deriving DecidableEq

/-- The `istatistik` object of `yazimDenetimi` (src/index.js:215-220). -/
structure YazimIstatistik where
  toplamKelime : Nat
  dogruKelime : Nat
  hataliKelime : Nat
  dogrulukOrani : String
deriving DecidableEq

/-- The `data` object of `yazimDenetimi`. -/
structure YazimVeri where
  metin : String
  sonuclar : List YazimSonucu
  istatistik : YazimIstatistik
deriving DecidableEq

/-- One loop iteration of `yazimDenetimi` (src/index.js:195-208): a word is
correct when the `yazim` endpoint settles fulfilled with a non-empty list;
an incorrect word gets suggestions from `benzerKelimeler` (via
`_onerilerGetir`, src/index.js:644-652); a rejected call records an
incorrect word with no suggestions. -/
def yazimKelimeSonucu (svc : RemoteService) (pool : List String)
    (hc : HarfCache) (kelime : String) : YazimSonucu × HarfCache :=
  match svc.yazim (yazimUrl kelime) with
  | .fulfilled d =>
    let dogruMu := match d with
      | some l => decide (0 < l.length)
      | none => false
    let oneriler :=
      if dogruMu then ([], hc) else benzerKelimeler pool hc kelime 5
    ({ kelime := kelime, dogru := dogruMu, oneriler := oneriler.1 },
      oneriler.2)
  | .rejected => ({ kelime := kelime, dogru := false, oneriler := [] }, hc)

/-- `yazimDenetimi` (src/index.js:191-226); the first component is the
constant `success: true` of its return value, the second the `data`
object.  The accuracy ratio is the unguarded
`(correct / total * 100).toFixed(2)`. -/
def yazimDenetimi (svc : RemoteService) (pool : List String)
    (hc0 : HarfCache) (metin : String) : Bool × YazimVeri :=
  let kelimeler := (splitWords [] metin.data).map (fun l => (⟨l⟩ : String))
  let adimlar := kelimeler.foldl
    (fun (acc : List YazimSonucu × HarfCache) k =>
      let r := yazimKelimeSonucu svc pool acc.2 k
      (acc.1 ++ [r.1], r.2)) ([], hc0)
  let sonuclar := adimlar.1
  let dogruSayi := (sonuclar.filter (fun s => s.dogru)).length
  (true,
   { metin := metin, sonuclar := sonuclar,
     istatistik :=
      { toplamKelime := kelimeler.length,
        dogruKelime := dogruSayi,
        hataliKelime := (sonuclar.filter (fun s => !s.dogru)).length,
        dogrulukOrani :=
          jsToFixed2 (jsMul100 (jsDivNat dogruSayi kelimeler.length)) } })

/-- C10 (confirmed): on input with no non-whitespace words the spell check
still returns `success: true` with zero total words, and the accuracy ratio
is the string rendering of `0/0` — `"NaN"` — because the division is
unguarded. -/
theorem claim10_thm (svc : RemoteService) (pool : List String)
    (hc0 : HarfCache) (metin : String) (h : splitWords [] metin.data = []) :
    (yazimDenetimi svc pool hc0 metin).1 = true ∧
    (yazimDenetimi svc pool hc0 metin).2.istatistik.toplamKelime = 0 ∧
    (yazimDenetimi svc pool hc0 metin).2.istatistik.dogrulukOrani = "NaN" := by
  unfold yazimDenetimi
  simp [h, jsDivNat, jsMul100, jsToFixed2]

/-- C10 witness at the concrete whitespace-only input `"  "`. -/
theorem claim10_witness :
    (yazimDenetimi svcRed [] (fun _ => none) "  ").1 = true ∧
    (yazimDenetimi svcRed [] (fun _ => none) "  ").2.istatistik.toplamKelime = 0 ∧
    (yazimDenetimi svcRed [] (fun _ => none) "  ").2.istatistik.dogrulukOrani = "NaN" :=
  claim10_thm svcRed [] (fun _ => none) "  " (by decide)

end TDK
